import Mathlib

/-!
Verification of the screengrabber repository's core components:
the mosaic layout engine (`screengrabber/mosaic_service.py`) and the
cache store (`screengrabber/cache_service.py`).

Modelling conventions:
* Python `float` arithmetic on aspect ratios and scale factors is embedded
  as exact rational arithmetic over `ℚ`.
* Python `int(x)` applied to a float truncates toward zero; this is `truncQ`.
* Python exceptions (`ValueError`, `ZeroDivisionError`) are embedded as
  `Except String`; the divisions the source performs are guarded by
  explicit zero tests exactly where Python would raise.
* The SQLite-backed cache is embedded as an explicit record of table
  contents; `datetime.utcnow()` is an explicit time argument (an integer
  timestamp), since wall-clock reads are the only impurity.
-/

namespace Screengrabber

/-- `mosaic_service.Image`: raw bytes plus declared pixel dimensions. -/
structure Image where
  file : List Nat
  width : ℤ
  height : ℤ
deriving Repr, DecidableEq

/-- `Image.aspect_ratio`: `width / height`, exact rational in place of the
Python float. -/
def Image.aspectRatio (img : Image) : ℚ := (img.width : ℚ) / (img.height : ℚ)

/-- Python `int()` on a float value: truncation toward zero. -/
def truncQ (q : ℚ) : ℤ := if q < 0 then ⌈q⌉ else ⌊q⌋

/-- Default aspect-ratio tolerance of `_should_combine_horizontally`. -/
def defaultTolerance : ℚ := 2/10

/-- `MosaicLayout._should_combine_horizontally`: relative aspect-ratio
difference `|ar1 - ar2| / max ar1 ar2` at most `tolerance`. -/
def shouldCombineHorizontally (img1 img2 : Image) (tolerance : ℚ) : Bool :=
  let ar1 := img1.aspectRatio
  let ar2 := img2.aspectRatio
  let diff := |ar1 - ar2| / max ar1 ar2
  decide (diff ≤ tolerance)

/-- The loop of `MosaicLayout._group_images`: `current` is the (always
nonempty) `current_group`; the previous image is `current_group[-1]`. -/
def groupGo (current : List Image) : List Image → List (List Image)
  | [] => [current]
  | img :: rest =>
    if shouldCombineHorizontally (current.getLastD img) img defaultTolerance
        ∧ current.length < 3
    then groupGo (current ++ [img]) rest
    else current :: groupGo [img] rest

/-- `MosaicLayout._group_images`. -/
def groupImages : List Image → List (List Image)
  | [] => []
  | img :: rest => groupGo [img] rest

/-- `group_width_ratio = sum(img.aspect_ratio for img in group)`. -/
def groupWidthRatio (group : List Image) : ℚ :=
  (group.map Image.aspectRatio).sum

/-- `target_height = int(self.target_width / group_width_ratio)`. -/
def rowTargetHeight (targetWidth : ℤ) (group : List Image) : ℤ :=
  truncQ ((targetWidth : ℚ) / groupWidthRatio group)

/-- `width = int(target_height * img.aspect_ratio)`: the naive scaled
width of one image of the group. -/
def naiveWidth (targetWidth : ℤ) (group : List Image) (img : Image) : ℤ :=
  truncQ ((rowTargetHeight targetWidth group : ℚ) * img.aspectRatio)

/-- `total_scaled_width`: sum of the naive widths of the group. -/
def totalScaledWidth (targetWidth : ℤ) (group : List Image) : ℤ :=
  (group.map (naiveWidth targetWidth group)).sum

/-- `available_width = self.target_width - (self.border_size * (len(group) - 1))`. -/
def availableWidth (targetWidth borderSize : ℤ) (groupSize : ℤ) : ℤ :=
  targetWidth - borderSize * (groupSize - 1)

/-- `scale_factor = available_width / total_scaled_width`. -/
def rowScaleFactor (targetWidth borderSize : ℤ) (group : List Image) : ℚ :=
  (availableWidth targetWidth borderSize group.length : ℚ)
    / (totalScaledWidth targetWidth group : ℚ)

/-- The `adjusted_row`: every naive width and the target height multiplied
by the scale factor and truncated by `int()`. -/
def adjustedRow (targetWidth borderSize : ℤ) (group : List Image) :
    List (Image × ℤ × ℤ) :=
  group.map (fun img =>
    (img,
      truncQ ((naiveWidth targetWidth group img : ℚ)
        * rowScaleFactor targetWidth borderSize group),
      truncQ ((rowTargetHeight targetWidth group : ℚ)
        * rowScaleFactor targetWidth borderSize group)))

/-- The body of the per-group loop of `MosaicLayout.calculate_layout`:
row sizing and border correction for one group, producing the adjusted
`(image, (width, height))` row.  The divisions by `group_width_ratio` and
by `total_scaled_width` raise `ZeroDivisionError` in Python when the
divisor is zero. -/
def scaleRow (targetWidth borderSize : ℤ) (group : List Image) :
    Except String (List (Image × ℤ × ℤ)) :=
  if groupWidthRatio group = 0 then .error "division by zero" else
  if totalScaledWidth targetWidth group = 0 then .error "division by zero" else
  .ok (adjustedRow targetWidth borderSize group)

/-- `max(img[1][1] for img in row)`: maximum scaled height of a (nonempty)
row. -/
def rowMaxHeight : List (Image × ℤ × ℤ) → ℤ
  | [] => 0
  | entry :: rest => rest.foldl (fun m e => max m e.2.2) entry.2.2

/-- The final-dimensions loop of `calculate_layout`: first row contributes
its height, every later row contributes `border_size` plus its height. -/
def stackHeight (borderSize : ℤ) : List (List (Image × ℤ × ℤ)) → ℤ
  | [] => 0
  | row :: rest =>
    rowMaxHeight row + (rest.map (fun r => borderSize + rowMaxHeight r)).sum

/-- The per-group loop of `calculate_layout`: scale every group into a row,
propagating the first Python exception. -/
def buildRows (targetWidth borderSize : ℤ) :
    List (List Image) → Except String (List (List (Image × ℤ × ℤ)))
  | [] => .ok []
  | group :: rest =>
    match scaleRow targetWidth borderSize group with
    | .error e => .error e
    | .ok row =>
      match buildRows targetWidth borderSize rest with
      | .error e => .error e
      | .ok rows => .ok (row :: rows)

/-- `MosaicLayout.calculate_layout`: groups the images, scales each group
into a row, and returns the rows together with the final canvas
dimensions `(target_width, final_height)`. -/
def calculateLayout (targetWidth : ℤ) (images : List Image) (borderSize : ℤ) :
    Except String (List (List (Image × ℤ × ℤ)) × ℤ × ℤ) :=
  if images.isEmpty then .error "No images provided for mosaic" else
  match buildRows targetWidth borderSize (groupImages images) with
  | .error e => .error e
  | .ok rows => .ok (rows, targetWidth, stackHeight borderSize rows)

/-- `MosaicService.create_mosaic` up to canvas allocation: the layout is
computed first, and only on success is a canvas of the returned dimensions
allocated.  The result is the allocated canvas's dimensions. -/
def createMosaicCanvas (images : List Image) (width borderSize : ℤ) :
    Except String (ℤ × ℤ) :=
  match calculateLayout width images borderSize with
  | .error e => .error e
  | .ok (_, dims) => .ok dims

/-- The quantity the border-correction step is meant to control: a row's
adjusted scaled widths plus `borderSize` between consecutive images. -/
def rowWidthSum (borderSize : ℤ) (row : List (Image × ℤ × ℤ)) : ℤ :=
  (row.map (fun entry => entry.2.1)).sum + borderSize * ((row.length : ℤ) - 1)

/-- Forget an image's payload bytes, keeping only its declared dimensions. -/
def stripFile (img : Image) : Image := ⟨[], img.width, img.height⟩

/-- The grouping rule as the specification words it: append the next image
to the current group iff the relative aspect-ratio difference against the
previous image in the group, `|ar1 - ar2| / max(ar1, ar2)`, is at most the
tolerance 0.2 AND the current group has fewer than 3 images. -/
def specShouldAppend (prev next : Image) (currentSize : Nat) : Prop :=
  |prev.aspectRatio - next.aspectRatio| /
      max prev.aspectRatio next.aspectRatio ≤ 2/10
    ∧ currentSize < 3

instance (prev next : Image) (k : Nat) : Decidable (specShouldAppend prev next k) := by
  unfold specShouldAppend
  exact inferInstance

/-- Grouping as the specification describes it, for comparison with
`groupImages` (walk in input order, start a group with the first image,
append iff `specShouldAppend`, otherwise close the group and start a new
one). -/
def specGroupGo (current : List Image) : List Image → List (List Image)
  | [] => [current]
  | img :: rest =>
    if specShouldAppend (current.getLastD img) img current.length
    then specGroupGo (current ++ [img]) rest
    else current :: specGroupGo [img] rest

/-- Entry point of the spec-side grouping description. -/
def specGroupImages : List Image → List (List Image)
  | [] => []
  | img :: rest => specGroupGo [img] rest

/-! ## Cache store (`cache_service.py`) -/

/-- A row of the `twitter_screengrabs` table. -/
structure ScreengrabRow where
  accountName : String
  statusId : String
  cachedAt : ℤ
  s3Path : String
deriving Repr, DecidableEq

/-- A row of the `twitter_screengrab_medias` table. -/
structure MediaRow where
  id : ℤ
  statusId : String
  cachedAt : ℤ
  s3Path : String
  sourceUrl : String
  mediaType : String
deriving Repr, DecidableEq

/-- State of the SQLite database behind `CacheService`: the rows of both
tables in table-scan (rowid) order, plus the AUTOINCREMENT counter of the
medias table.  `datetime.utcnow()` is modelled as an integer timestamp
passed explicitly to each write. -/
structure CacheDB where
  screengrabs : List ScreengrabRow
  medias : List MediaRow
  nextMediaId : ℤ
deriving Repr, DecidableEq

/-- `CacheService._init_db` on a fresh database file: both tables empty. -/
def CacheDB.empty : CacheDB := ⟨[], [], 1⟩

/-- Match on the `twitter_screengrabs` primary key `(account_name, status_id)`. -/
def ScreengrabRow.hasKey (r : ScreengrabRow) (accountName statusId : String) : Bool :=
  decide (r.accountName = accountName ∧ r.statusId = statusId)

/-- `CacheService.add_twitter_screengrab`: `INSERT OR REPLACE` keyed on
`(account_name, status_id)` deletes any conflicting row and inserts the
new one; `now` is the `datetime.utcnow()` observed during the call. -/
def addTwitterScreengrab (db : CacheDB) (accountName statusId s3Path : String)
    (now : ℤ) : CacheDB :=
  { db with screengrabs :=
      db.screengrabs.filter (fun r => !(r.hasKey accountName statusId))
        ++ [⟨accountName, statusId, now, s3Path⟩] }

/-- `CacheService.get_twitter_screengrab_if_exists`: `SELECT ... WHERE
account_name = ? AND status_id = ?` with `fetchone`, returning the tuple
`(account_name, status_id, cached_at, s3_path)` or `None`. -/
def getTwitterScreengrabIfExists (db : CacheDB) (accountName statusId : String) :
    Option (String × String × ℤ × String) :=
  (db.screengrabs.find? (fun r => r.hasKey accountName statusId)).map
    (fun r => (r.accountName, r.statusId, r.cachedAt, r.s3Path))

/-- `CacheService.add_twitter_screengrab_media`: the AUTOINCREMENT primary
key is never supplied and no other column is constrained unique, so the
`INSERT OR REPLACE` always inserts a fresh row at the end. -/
def addTwitterScreengrabMedia (db : CacheDB)
    (statusId s3Path sourceUrl mediaType : String) (now : ℤ) : CacheDB :=
  { db with
    medias :=
      db.medias ++ [⟨db.nextMediaId, statusId, now, s3Path, sourceUrl, mediaType⟩],
    nextMediaId := db.nextMediaId + 1 }

/-- `CacheService.get_twitter_screengrab_medias`: all rows of the medias
table with the given `status_id`, in table order. -/
def getTwitterScreengrabMedias (db : CacheDB) (statusId : String) : List MediaRow :=
  db.medias.filter (fun r => decide (r.statusId = statusId))

/-- One write operation against the cache store, carrying the wall-clock
time observed during the call. -/
inductive CacheOp where
  | upsert (accountName statusId s3Path : String) (now : ℤ)
  | addMedia (statusId s3Path sourceUrl mediaType : String) (now : ℤ)
deriving Repr, DecidableEq

/-- Apply one cache write. -/
def applyOp (db : CacheDB) : CacheOp → CacheDB
  | .upsert a s p t => addTwitterScreengrab db a s p t
  | .addMedia s p u m t => addTwitterScreengrabMedia db s p u m t

/-- Apply a sequence of cache writes in order. -/
def applyOps (db : CacheDB) (ops : List CacheOp) : CacheDB :=
  ops.foldl applyOp db

/-- The media payloads `(s3_path, source_url, media_type, cached_at)` that a
sequence of operations adds for `statusId`, in order of execution. -/
def mediaAddsFor (statusId : String) (ops : List CacheOp) :
    List (String × String × String × ℤ) :=
  ops.filterMap (fun op => match op with
    | .addMedia s p u m t => if s = statusId then some (p, u, m, t) else none
    | _ => none)

/-- Number of rows of the screengrabs table holding a given key. -/
def screengrabCount (db : CacheDB) (accountName statusId : String) : Nat :=
  (db.screengrabs.filter (fun r => r.hasKey accountName statusId)).length

/-- Payload of a media row as listed: `(s3_path, source_url, media_type,
cached_at)`. -/
def MediaRow.payload (r : MediaRow) : String × String × String × ℤ :=
  (r.s3Path, r.sourceUrl, r.mediaType, r.cachedAt)

/-! ## Grouping lemmas -/

theorem groupGo_ne_nil (rest : List Image) : ∀ current, groupGo current rest ≠ [] := by
  induction rest with
  | nil => intro current; simp [groupGo]
  | cons img rest ih =>
    intro current
    rw [groupGo]
    split
    · exact ih _
    · simp

theorem groupGo_join (rest : List Image) : ∀ current,
    (groupGo current rest).flatten = current ++ rest := by
  induction rest with
  | nil => intro current; simp [groupGo]
  | cons img rest ih =>
    intro current
    rw [groupGo]
    split
    · rw [ih]; simp
    · simp [ih]

theorem groupImages_join (images : List Image) :
    (groupImages images).flatten = images := by
  cases images with
  | nil => rfl
  | cons img rest => simp [groupImages, groupGo_join]

theorem groupGo_length (rest : List Image) : ∀ current, current ≠ [] →
    current.length ≤ 3 →
    ∀ g ∈ groupGo current rest, 1 ≤ g.length ∧ g.length ≤ 3 := by
  induction rest with
  | nil =>
    intro current hne hle g hg
    simp only [groupGo, List.mem_singleton] at hg
    subst hg
    exact ⟨List.length_pos.mpr hne, hle⟩
  | cons img rest ih =>
    intro current hne hle g hg
    rw [groupGo] at hg
    split at hg
    case isTrue h =>
      refine ih _ (by simp) ?_ g hg
      have := h.2
      simp only [List.length_append, List.length_singleton]
      omega
    case isFalse h =>
      rcases List.mem_cons.mp hg with hg | hg
      · subst hg; exact ⟨List.length_pos.mpr hne, hle⟩
      · exact ih [img] (by simp) (by simp) g hg

theorem groupImages_length (images : List Image) :
    ∀ g ∈ groupImages images, 1 ≤ g.length ∧ g.length ≤ 3 := by
  cases images with
  | nil => intro g hg; simp [groupImages] at hg
  | cons img rest => exact groupGo_length rest [img] (by simp) (by simp)

theorem mem_of_mem_groupImages {images : List Image} {g : List Image}
    (hg : g ∈ groupImages images) {img : Image} (himg : img ∈ g) :
    img ∈ images := by
  rw [← groupImages_join images]
  exact List.mem_flatten.mpr ⟨g, hg, himg⟩

theorem shouldCombine_iff (prev next : Image) (k : Nat) :
    ((shouldCombineHorizontally prev next defaultTolerance : Prop) ∧ k < 3)
      ↔ specShouldAppend prev next k := by
  unfold shouldCombineHorizontally specShouldAppend defaultTolerance
  simp

theorem groupGo_eq_specGroupGo (rest : List Image) : ∀ current,
    groupGo current rest = specGroupGo current rest := by
  induction rest with
  | nil => intro current; rfl
  | cons img rest ih =>
    intro current
    rw [groupGo, specGroupGo]
    by_cases h : specShouldAppend (current.getLastD img) img current.length
    · rw [if_pos ((shouldCombine_iff _ _ _).mpr h), if_pos h, ih]
    · rw [if_neg (fun hc => h ((shouldCombine_iff _ _ _).mp hc)), if_neg h, ih]

/-! ## Layout lemmas -/

theorem groupImages_ne_nil {images : List Image} (h : images ≠ []) :
    groupImages images ≠ [] := by
  cases images with
  | nil => exact absurd rfl h
  | cons img rest => exact groupGo_ne_nil rest [img]

theorem scaleRow_ok_iff {targetWidth borderSize : ℤ} {group : List Image}
    {row : List (Image × ℤ × ℤ)} :
    scaleRow targetWidth borderSize group = .ok row
      ↔ groupWidthRatio group ≠ 0 ∧ totalScaledWidth targetWidth group ≠ 0
          ∧ row = adjustedRow targetWidth borderSize group := by
  unfold scaleRow
  by_cases h1 : groupWidthRatio group = 0
  · simp [h1]
  · by_cases h2 : totalScaledWidth targetWidth group = 0
    · simp [h1, h2]
    · simp [h1, h2, eq_comm]

theorem buildRows_ok {targetWidth borderSize : ℤ} :
    ∀ {groups : List (List Image)} {rows : List (List (Image × ℤ × ℤ))},
    buildRows targetWidth borderSize groups = .ok rows →
    List.Forall₂ (fun g row => scaleRow targetWidth borderSize g = .ok row)
      groups rows := by
  intro groups
  induction groups with
  | nil =>
    intro rows h
    simp only [buildRows] at h
    cases h
    exact List.Forall₂.nil
  | cons g gs ih =>
    intro rows h
    cases hsr : scaleRow targetWidth borderSize g with
    | error e => rw [buildRows, hsr] at h; simp at h
    | ok row =>
      cases hbr : buildRows targetWidth borderSize gs with
      | error e => rw [buildRows, hsr, hbr] at h; simp at h
      | ok rows' =>
        rw [buildRows, hsr, hbr] at h
        cases h
        exact List.Forall₂.cons hsr (ih hbr)

theorem buildRows_ok_of_forall {targetWidth borderSize : ℤ} :
    ∀ (groups : List (List Image)),
    (∀ g ∈ groups, ∃ row, scaleRow targetWidth borderSize g = .ok row) →
    ∃ rows, buildRows targetWidth borderSize groups = .ok rows := by
  intro groups
  induction groups with
  | nil => intro _; exact ⟨[], rfl⟩
  | cons g gs ih =>
    intro h
    obtain ⟨row, hrow⟩ := h g (by simp)
    obtain ⟨rows, hrows⟩ := ih (fun g' hg' => h g' (by simp [hg']))
    exact ⟨row :: rows, by rw [buildRows, hrow, hrows]⟩

theorem calculateLayout_ok {targetWidth borderSize : ℤ} {images : List Image}
    {rows : List (List (Image × ℤ × ℤ))} {dims : ℤ × ℤ}
    (h : calculateLayout targetWidth images borderSize = .ok (rows, dims)) :
    images ≠ []
    ∧ buildRows targetWidth borderSize (groupImages images) = .ok rows
    ∧ dims = (targetWidth, stackHeight borderSize rows) := by
  unfold calculateLayout at h
  by_cases hne : images.isEmpty
  · rw [if_pos hne] at h; simp at h
  · rw [if_neg hne] at h
    cases hbr : buildRows targetWidth borderSize (groupImages images) with
    | error e => rw [hbr] at h; simp at h
    | ok rows' =>
      rw [hbr] at h
      simp only [Except.ok.injEq, Prod.mk.injEq] at h
      obtain ⟨h1, h2⟩ := h
      subst h1
      exact ⟨by simpa using hne, rfl, h2.symm⟩

theorem adjustedRow_map_fst (targetWidth borderSize : ℤ) (group : List Image) :
    (adjustedRow targetWidth borderSize group).map Prod.fst = group := by
  simp [adjustedRow, List.map_map, Function.comp_def]

theorem forall₂_map_fst_eq :
    ∀ {groups : List (List Image)} {rows : List (List (Image × ℤ × ℤ))},
    List.Forall₂ (fun g row => row.map Prod.fst = g) groups rows →
    rows.map (fun row => row.map Prod.fst) = groups := by
  intro groups rows h
  induction h with
  | nil => rfl
  | cons h _ ih => simp [h, ih]

theorem forall₂_mem_right {α β : Type} {R : α → β → Prop} :
    ∀ {l1 : List α} {l2 : List β}, List.Forall₂ R l1 l2 →
    ∀ {b : β}, b ∈ l2 → ∃ a ∈ l1, R a b := by
  intro l1 l2 h
  induction h with
  | nil => intro b hb; simp at hb
  | cons hR _ ih =>
    intro b hb
    rcases List.mem_cons.mp hb with hb | hb
    · exact ⟨_, by simp, hb ▸ hR⟩
    · obtain ⟨a, ha, haR⟩ := ih hb
      exact ⟨a, by simp [ha], haR⟩

theorem sum_map_border_add (borderSize : ℤ) :
    ∀ rest : List (List (Image × ℤ × ℤ)),
    (rest.map (fun r' => borderSize + rowMaxHeight r')).sum
      = borderSize * (rest.length : ℤ) + (rest.map rowMaxHeight).sum := by
  intro rest
  induction rest with
  | nil => simp
  | cons x xs ih =>
    simp only [List.map_cons, List.sum_cons, List.length_cons, ih]
    push_cast
    ring

theorem stackHeight_eq (borderSize : ℤ) (rows : List (List (Image × ℤ × ℤ)))
    (h : rows ≠ []) :
    stackHeight borderSize rows
      = (rows.map rowMaxHeight).sum + borderSize * ((rows.length : ℤ) - 1) := by
  cases rows with
  | nil => exact absurd rfl h
  | cons r rest =>
    simp only [stackHeight, List.map_cons, List.sum_cons, List.length_cons,
      sum_map_border_add]
    push_cast
    ring

/-! ## Arithmetic lemmas on truncation and sums -/

theorem truncQ_of_nonneg (q : ℚ) (h : 0 ≤ q) : truncQ q = ⌊q⌋ := by
  rw [truncQ, if_neg (not_lt.mpr h)]

theorem truncQ_nonneg (q : ℚ) (h : 0 ≤ q) : 0 ≤ truncQ q := by
  rw [truncQ_of_nonneg q h]
  exact Int.floor_nonneg.mpr h

theorem truncQ_le (q : ℚ) (h : 0 ≤ q) : (truncQ q : ℚ) ≤ q := by
  rw [truncQ_of_nonneg q h]
  exact Int.floor_le q

theorem truncQ_gt_sub_one (q : ℚ) : q - 1 < (truncQ q : ℚ) := by
  unfold truncQ
  split
  · have := Int.le_ceil q
    linarith
  · exact Int.sub_one_lt_floor q

theorem cast_intList_sum (l : List ℤ) :
    ((l.sum : ℤ) : ℚ) = (l.map (fun x => (x : ℚ))).sum := by
  induction l with
  | nil => simp
  | cons x l ih => simp [ih]

theorem cast_sum_map_int {α : Type} (g : List α) (F : α → ℤ) :
    (((g.map F).sum : ℤ) : ℚ) = (g.map (fun a => ((F a : ℤ) : ℚ))).sum := by
  induction g with
  | nil => simp
  | cons a g ih => simp [ih]

theorem sum_truncQ_le (l : List ℚ) (h : ∀ q ∈ l, 0 ≤ q) :
    (((l.map truncQ).sum : ℤ) : ℚ) ≤ l.sum := by
  induction l with
  | nil => simp
  | cons q l ih =>
    simp only [List.map_cons, List.sum_cons]
    push_cast
    have h1 : (truncQ q : ℚ) ≤ q := truncQ_le q (h q (by simp))
    have h2 := ih (fun x hx => h x (by simp [hx]))
    push_cast at h2
    linarith

theorem sum_sub_length_lt_sum_truncQ (l : List ℚ) (hne : l ≠ []) :
    l.sum - l.length < (((l.map truncQ).sum : ℤ) : ℚ) := by
  induction l with
  | nil => exact absurd rfl hne
  | cons q l ih =>
    cases l with
    | nil => simpa using truncQ_gt_sub_one q
    | cons r t =>
      have ihh := ih (by simp)
      simp only [List.map_cons, List.sum_cons, List.length_cons] at ihh ⊢
      push_cast at ihh ⊢
      have h1 : q - 1 < (truncQ q : ℚ) := truncQ_gt_sub_one q
      linarith

theorem aspectRatio_pos {img : Image} (hw : 0 < img.width) (hh : 0 < img.height) :
    0 < img.aspectRatio := by
  unfold Image.aspectRatio
  have hw' : (0 : ℚ) < img.width := by exact_mod_cast hw
  have hh' : (0 : ℚ) < img.height := by exact_mod_cast hh
  exact div_pos hw' hh'

theorem groupWidthRatio_pos {group : List Image} (hne : group ≠ [])
    (hpos : ∀ img ∈ group, 0 < img.width ∧ 0 < img.height) :
    0 < groupWidthRatio group := by
  unfold groupWidthRatio
  refine List.sum_pos _ ?_ (fun h => hne (List.map_eq_nil_iff.mp h))
  intro q hq
  obtain ⟨img, himg, rfl⟩ := List.mem_map.mp hq
  exact aspectRatio_pos (hpos img himg).1 (hpos img himg).2

theorem rowTargetHeight_nonneg {targetWidth : ℤ} {group : List Image}
    (htw : 0 ≤ targetWidth) (hS : 0 < groupWidthRatio group) :
    0 ≤ rowTargetHeight targetWidth group := by
  unfold rowTargetHeight
  refine truncQ_nonneg _ (div_nonneg ?_ hS.le)
  exact_mod_cast htw

theorem naiveWidth_nonneg {targetWidth : ℤ} {group : List Image} {img : Image}
    (hth : 0 ≤ rowTargetHeight targetWidth group) (har : 0 < img.aspectRatio) :
    0 ≤ naiveWidth targetWidth group img := by
  unfold naiveWidth
  refine truncQ_nonneg _ (mul_nonneg ?_ har.le)
  exact_mod_cast hth

theorem adjustedRow_width_sum_bounds (targetWidth borderSize : ℤ)
    (group : List Image)
    (hne : group ≠ [])
    (hpos : ∀ img ∈ group, 0 < img.width ∧ 0 < img.height)
    (hbs : 0 ≤ borderSize) (htw : 2 * borderSize ≤ targetWidth)
    (hlen : group.length ≤ 3)
    (hW : totalScaledWidth targetWidth group ≠ 0) :
    rowWidthSum borderSize (adjustedRow targetWidth borderSize group) ≤ targetWidth
    ∧ targetWidth - (group.length : ℤ)
        < rowWidthSum borderSize (adjustedRow targetWidth borderSize group) := by
  have htw0 : (0 : ℤ) ≤ targetWidth := by linarith
  have har : ∀ img ∈ group, 0 < img.aspectRatio := fun img h =>
    aspectRatio_pos (hpos img h).1 (hpos img h).2
  have hS : 0 < groupWidthRatio group := groupWidthRatio_pos hne hpos
  have hth : 0 ≤ rowTargetHeight targetWidth group := rowTargetHeight_nonneg htw0 hS
  have hnaive : ∀ img ∈ group, 0 ≤ naiveWidth targetWidth group img :=
    fun img himg => naiveWidth_nonneg hth (har img himg)
  have hW0 : 0 ≤ totalScaledWidth targetWidth group := by
    unfold totalScaledWidth
    refine List.sum_nonneg ?_
    intro x hx
    obtain ⟨img, himg, rfl⟩ := List.mem_map.mp hx
    exact hnaive img himg
  have hWpos : 0 < totalScaledWidth targetWidth group := lt_of_le_of_ne hW0 (Ne.symm hW)
  have hWQ : (0 : ℚ) < ((totalScaledWidth targetWidth group : ℤ) : ℚ) := by
    exact_mod_cast hWpos
  have hn1 : 1 ≤ group.length := List.length_pos.mpr hne
  have hn1' : (1 : ℤ) ≤ (group.length : ℤ) := by exact_mod_cast hn1
  have hn3 : ((group.length : ℤ)) ≤ 3 := by exact_mod_cast hlen
  have hA_le : availableWidth targetWidth borderSize group.length ≤ targetWidth := by
    unfold availableWidth
    have h0 : (0 : ℤ) ≤ borderSize * ((group.length : ℤ) - 1) :=
      mul_nonneg hbs (by linarith)
    linarith
  have hA_nonneg : 0 ≤ availableWidth targetWidth borderSize group.length := by
    unfold availableWidth
    have h2 : borderSize * ((group.length : ℤ) - 1) ≤ borderSize * 2 :=
      mul_le_mul_of_nonneg_left (by linarith) hbs
    linarith
  have hf : 0 ≤ rowScaleFactor targetWidth borderSize group := by
    unfold rowScaleFactor
    refine div_nonneg ?_ hWQ.le
    exact_mod_cast hA_nonneg
  set f := rowScaleFactor targetWidth borderSize group with hfdef
  set l := group.map (fun img => ((naiveWidth targetWidth group img : ℤ) : ℚ) * f)
    with hldef
  have hwidths : (adjustedRow targetWidth borderSize group).map (fun e => e.2.1)
      = l.map truncQ := by
    simp [adjustedRow, hldef, List.map_map]
  have hlength : (adjustedRow targetWidth borderSize group).length = group.length := by
    simp [adjustedRow]
  have hl_len : l.length = group.length := by simp [hldef]
  have hl_ne : l ≠ [] := by
    rw [hldef]
    exact fun h => hne (List.map_eq_nil_iff.mp h)
  have hl_nonneg : ∀ q ∈ l, 0 ≤ q := by
    intro q hq
    rw [hldef] at hq
    obtain ⟨img, himg, rfl⟩ := List.mem_map.mp hq
    exact mul_nonneg (by exact_mod_cast hnaive img himg) hf
  have hlsum : l.sum = ((availableWidth targetWidth borderSize group.length : ℤ) : ℚ) := by
    have h1 : l.sum
        = ((group.map (fun img => ((naiveWidth targetWidth group img : ℤ) : ℚ))).sum) * f := by
      rw [hldef]
      simpa using
        List.sum_map_mul_right group
          (fun img => ((naiveWidth targetWidth group img : ℤ) : ℚ)) f
    have h2 : (group.map (fun img => ((naiveWidth targetWidth group img : ℤ) : ℚ))).sum
        = ((totalScaledWidth targetWidth group : ℤ) : ℚ) := by
      unfold totalScaledWidth
      exact (cast_sum_map_int group (naiveWidth targetWidth group)).symm
    rw [h1, h2, hfdef]
    unfold rowScaleFactor
    field_simp
  have hup : ((l.map truncQ).sum : ℚ)
      ≤ ((availableWidth targetWidth borderSize group.length : ℤ) : ℚ) := by
    rw [← hlsum]
    exact sum_truncQ_le l hl_nonneg
  have hlo : ((availableWidth targetWidth borderSize group.length : ℤ) : ℚ)
      - (group.length : ℚ) < ((l.map truncQ).sum : ℚ) := by
    rw [← hlsum, ← hl_len]
    exact sum_sub_length_lt_sum_truncQ l hl_ne
  have hupZ : (l.map truncQ).sum ≤ availableWidth targetWidth borderSize group.length := by
    exact_mod_cast hup
  have hloZ : availableWidth targetWidth borderSize group.length - (group.length : ℤ)
      < (l.map truncQ).sum := by
    exact_mod_cast hlo
  have hrow : rowWidthSum borderSize (adjustedRow targetWidth borderSize group)
      = (l.map truncQ).sum + borderSize * ((group.length : ℤ) - 1) := by
    unfold rowWidthSum
    rw [hwidths, hlength]
  rw [hrow]
  unfold availableWidth at hupZ hloZ
  constructor
  · linarith
  · linarith

theorem totalScaledWidth_pos (targetWidth : ℤ) (group : List Image)
    (hne : group ≠ [])
    (hpos : ∀ img ∈ group, 0 < img.width ∧ 0 < img.height)
    (htw : 6 ≤ targetWidth)
    (har : ∀ img ∈ group, 6 * img.width ≤ targetWidth * img.height)
    (hlen : group.length ≤ 3) :
    0 < totalScaledWidth targetWidth group := by
  have hS : 0 < groupWidthRatio group := groupWidthRatio_pos hne hpos
  have harle : ∀ img ∈ group, img.aspectRatio ≤ (targetWidth : ℚ) / 6 := by
    intro img himg
    have hh : (0 : ℚ) < (img.height : ℚ) := by exact_mod_cast (hpos img himg).2
    unfold Image.aspectRatio
    rw [div_le_div_iff₀ hh (by norm_num : (0 : ℚ) < 6)]
    have h6 := har img himg
    have : ((6 * img.width : ℤ) : ℚ) ≤ ((targetWidth * img.height : ℤ) : ℚ) := by
      exact_mod_cast h6
    push_cast at this
    linarith
  have hSle : groupWidthRatio group
      ≤ (group.length : ℚ) * ((targetWidth : ℚ) / 6) := by
    unfold groupWidthRatio
    have h := List.sum_le_card_nsmul (group.map Image.aspectRatio)
      ((targetWidth : ℚ) / 6) ?_
    · rw [nsmul_eq_mul] at h
      simpa using h
    · intro x hx
      obtain ⟨img, himg, rfl⟩ := List.mem_map.mp hx
      exact harle img himg
  have htwQ : (6 : ℚ) ≤ (targetWidth : ℚ) := by exact_mod_cast htw
  have hlenQ : ((group.length : ℕ) : ℚ) ≤ 3 := by exact_mod_cast hlen
  have hS2 : groupWidthRatio group ≤ (targetWidth : ℚ) / 2 := by
    have h1 : (group.length : ℚ) * ((targetWidth : ℚ) / 6)
        ≤ 3 * ((targetWidth : ℚ) / 6) :=
      mul_le_mul_of_nonneg_right hlenQ (by positivity)
    calc groupWidthRatio group ≤ (group.length : ℚ) * ((targetWidth : ℚ) / 6) := hSle
      _ ≤ 3 * ((targetWidth : ℚ) / 6) := h1
      _ = (targetWidth : ℚ) / 2 := by ring
  have hthQ : (targetWidth : ℚ) / groupWidthRatio group - 1
      < (rowTargetHeight targetWidth group : ℚ) := by
    unfold rowTargetHeight
    exact truncQ_gt_sub_one _
  have h2 : (targetWidth : ℚ) - groupWidthRatio group
      < (rowTargetHeight targetWidth group : ℚ) * groupWidthRatio group := by
    have h3 : ((targetWidth : ℚ) / groupWidthRatio group) * groupWidthRatio group
        = (targetWidth : ℚ) := div_mul_cancel₀ _ hS.ne'
    nlinarith [mul_lt_mul_of_pos_right hthQ hS]
  have hl_ne : group.map
      (fun img => (rowTargetHeight targetWidth group : ℚ) * img.aspectRatio) ≠ [] :=
    fun h => hne (List.map_eq_nil_iff.mp h)
  have hWlow := sum_sub_length_lt_sum_truncQ
    (group.map (fun img => (rowTargetHeight targetWidth group : ℚ) * img.aspectRatio))
    hl_ne
  have hsum1 : (group.map
      (fun img => (rowTargetHeight targetWidth group : ℚ) * img.aspectRatio)).sum
      = (rowTargetHeight targetWidth group : ℚ) * groupWidthRatio group := by
    unfold groupWidthRatio
    simpa using List.sum_map_mul_left group Image.aspectRatio
      ((rowTargetHeight targetWidth group : ℚ))
  have hmapmap : ((group.map
      (fun img => (rowTargetHeight targetWidth group : ℚ) * img.aspectRatio)).map
        truncQ).sum = totalScaledWidth targetWidth group := by
    unfold totalScaledWidth naiveWidth
    rw [List.map_map]
    rfl
  rw [hsum1, hmapmap] at hWlow
  simp only [List.length_map] at hWlow
  have hfinal : (0 : ℚ) < ((totalScaledWidth targetWidth group : ℤ) : ℚ) := by
    linarith
  exact_mod_cast hfinal

/-! ## Claim theorems: grouping and error handling -/

/-- C2: grouping walks the list in input order starting a group with the
first image; each subsequent image is appended to the current group iff its
relative aspect-ratio difference versus the previous image in the group is
at most 0.2 and the group has fewer than 3 images, otherwise a new group is
started — in particular a fourth similar image after 3 already grouped
always starts a new row. -/
theorem grouping_follows_similarity_rule :
    (∀ images : List Image, groupImages images = specGroupImages images)
    ∧ ∀ img : Image, groupImages [img, img, img, img] = [[img, img, img], [img]] := by
  constructor
  · intro images
    cases images with
    | nil => rfl
    | cons i rest =>
      simpa [groupImages, specGroupImages] using groupGo_eq_specGroupGo rest [i]
  · intro img
    have hc : shouldCombineHorizontally img img defaultTolerance = true := by
      unfold shouldCombineHorizontally defaultTolerance
      norm_num
    simp [groupImages, groupGo, hc]

/-- C7: calling the composer with an empty list of images raises the
`ValueError` (`EmptyInput`) before any canvas is allocated: both the layout
computation and `create_mosaic` stop with the error and produce no
dimensions. -/
theorem empty_input_raises_before_allocation :
    ∀ targetWidth borderSize : ℤ,
      calculateLayout targetWidth [] borderSize
          = .error "No images provided for mosaic"
      ∧ createMosaicCanvas [] targetWidth borderSize
          = .error "No images provided for mosaic" :=
  fun _ _ => ⟨rfl, rfl⟩

/-- Concrete evaluation of the layout on aspect ratios `[1.0, 3.0]` at
target width 1200 and border 10: two single-image rows. -/
theorem layout_two_rows_concrete :
    calculateLayout 1200 [⟨[], 100, 100⟩, ⟨[], 300, 100⟩] 10
      = .ok ([[(⟨[], 100, 100⟩, 1200, 1200)], [(⟨[], 300, 100⟩, 1200, 400)]],
          1200, 1200 + 10 + 400) := by
  norm_num [calculateLayout, groupImages, groupGo, shouldCombineHorizontally,
    defaultTolerance, Image.aspectRatio, buildRows, scaleRow, groupWidthRatio,
    rowTargetHeight, naiveWidth, totalScaledWidth, availableWidth, rowScaleFactor,
    adjustedRow, truncQ, stackHeight, rowMaxHeight, abs_of_nonneg, abs_of_nonpos]

/-- C3: for a non-empty list of images the final canvas has width
`targetWidth` and height the sum over rows of the row's maximum scaled
height plus `borderSize` times (number of rows − 1), with no border before
the first or after the last row; for aspect ratios `[1.0, 3.0]` at width
1200 and border 10 the height is `1200 + 10 + 400` exactly. -/
theorem canvas_dimensions (targetWidth borderSize : ℤ) (images : List Image)
    (rows : List (List (Image × ℤ × ℤ))) (dims : ℤ × ℤ)
    (hok : calculateLayout targetWidth images borderSize = .ok (rows, dims)) :
    dims.1 = targetWidth
    ∧ dims.2 = (rows.map rowMaxHeight).sum + borderSize * ((rows.length : ℤ) - 1)
    ∧ calculateLayout 1200 [⟨[], 100, 100⟩, ⟨[], 300, 100⟩] 10
        = .ok ([[(⟨[], 100, 100⟩, 1200, 1200)], [(⟨[], 300, 100⟩, 1200, 400)]],
            1200, 1200 + 10 + 400) := by
  obtain ⟨hne, hbr, hdims⟩ := calculateLayout_ok hok
  have hrows : rows ≠ [] := by
    intro hnil
    subst hnil
    have hlen := (buildRows_ok hbr).length_eq
    simp at hlen
    exact groupImages_ne_nil hne hlen
  subst hdims
  exact ⟨rfl, stackHeight_eq borderSize rows hrows, layout_two_rows_concrete⟩

/-- Witness applying `canvas_dimensions` to the concrete two-row instance. -/
theorem canvas_dimensions_witness : ((1200, 1610) : ℤ × ℤ).1 = 1200 :=
  (canvas_dimensions 1200 10 [⟨[], 100, 100⟩, ⟨[], 300, 100⟩]
    [[(⟨[], 100, 100⟩, 1200, 1200)], [(⟨[], 300, 100⟩, 1200, 400)]]
    (1200, 1610) (by simpa using layout_two_rows_concrete)).1

/-- C9: the rows of a computed layout partition the input: concatenating
the rows' images in order gives back exactly the input list, and every row
holds between 1 and 3 images. -/
theorem rows_partition_input (targetWidth borderSize : ℤ) (images : List Image)
    (rows : List (List (Image × ℤ × ℤ))) (dims : ℤ × ℤ)
    (hok : calculateLayout targetWidth images borderSize = .ok (rows, dims)) :
    (rows.map (fun row => row.map Prod.fst)).flatten = images
    ∧ ∀ row ∈ rows, 1 ≤ row.length ∧ row.length ≤ 3 := by
  obtain ⟨hne, hbr, _⟩ := calculateLayout_ok hok
  have hf := buildRows_ok hbr
  have hfst : List.Forall₂ (fun g row => row.map Prod.fst = g)
      (groupImages images) rows := by
    refine hf.imp ?_
    intro g row hsr
    obtain ⟨_, _, hrow⟩ := scaleRow_ok_iff.mp hsr
    rw [hrow]
    exact adjustedRow_map_fst targetWidth borderSize g
  constructor
  · rw [forall₂_map_fst_eq hfst]
    exact groupImages_join images
  · intro row hrow
    obtain ⟨g, hg, hgr⟩ := forall₂_mem_right hfst hrow
    have hlen : row.length = g.length := by rw [← hgr]; simp
    rw [hlen]
    exact groupImages_length images g hg

/-- Witness applying `rows_partition_input` to a concrete layout. -/
theorem rows_partition_input_witness :
    (([[(⟨[], 100, 100⟩, 1200, 1200)], [(⟨[], 300, 100⟩, 1200, 400)]]
        : List (List (Image × ℤ × ℤ))).map
      (fun row => row.map Prod.fst)).flatten
        = [⟨[], 100, 100⟩, ⟨[], 300, 100⟩] :=
  (rows_partition_input 1200 10 [⟨[], 100, 100⟩, ⟨[], 300, 100⟩]
    [[(⟨[], 100, 100⟩, 1200, 1200)], [(⟨[], 300, 100⟩, 1200, 400)]]
    (1200, 1610) (by simpa using layout_two_rows_concrete)).1

/-! ## Cache lemmas -/

theorem filter_key_addTwitterScreengrab (db : CacheDB) (a s p : String) (t : ℤ) :
    (addTwitterScreengrab db a s p t).screengrabs.filter
      (fun r => r.hasKey a s) = [⟨a, s, t, p⟩] := by
  unfold addTwitterScreengrab
  rw [List.filter_append, List.filter_filter]
  simp [ScreengrabRow.hasKey]

theorem getMedias_applyOps (sid : String) : ∀ (ops : List CacheOp) (db : CacheDB),
    (getTwitterScreengrabMedias (applyOps db ops) sid).map MediaRow.payload
      = (getTwitterScreengrabMedias db sid).map MediaRow.payload
          ++ mediaAddsFor sid ops := by
  intro ops
  induction ops with
  | nil => intro db; simp [applyOps, mediaAddsFor]
  | cons op ops ih =>
    intro db
    have happ : applyOps db (op :: ops) = applyOps (applyOp db op) ops := rfl
    rw [happ, ih]
    cases op with
    | upsert a s p t =>
      simp [applyOp, addTwitterScreengrab, getTwitterScreengrabMedias, mediaAddsFor]
    | addMedia s' p u m t =>
      by_cases hs : s' = sid
      · subst hs
        simp [applyOp, addTwitterScreengrabMedia, getTwitterScreengrabMedias,
          mediaAddsFor, MediaRow.payload, List.filter_append]
      · simp [applyOp, addTwitterScreengrabMedia, getTwitterScreengrabMedias,
          mediaAddsFor, hs, List.filter_append]

/-! ## Claim theorems: cache store -/

/-- C4: upserting `(ownerId, contentId) → L` and then looking the key up
returns a record whose locator is `L` and whose `cachedAt` is the UTC time
observed during the upsert, which lies between the time just before and
just after the call. -/
theorem upsert_then_lookup (db : CacheDB) (a s p : String) (tBefore t tAfter : ℤ)
    (h1 : tBefore ≤ t) (h2 : t ≤ tAfter) :
    getTwitterScreengrabIfExists (addTwitterScreengrab db a s p t) a s
        = some (a, s, t, p)
      ∧ tBefore ≤ t ∧ t ≤ tAfter := by
  refine ⟨?_, h1, h2⟩
  unfold getTwitterScreengrabIfExists addTwitterScreengrab
  rw [List.find?_append]
  have hnone : (db.screengrabs.filter (fun r => !(r.hasKey a s))).find?
      (fun r => r.hasKey a s) = none := by
    rw [List.find?_eq_none]
    intro x hx
    have hmem := (List.mem_filter.mp hx).2
    simp at hmem
    simp [hmem]
  rw [hnone]
  simp [List.find?, ScreengrabRow.hasKey]

/-- Witness applying `upsert_then_lookup` at a concrete input. -/
theorem upsert_then_lookup_witness :
    (4 : ℤ) ≤ 5 ∧ (5 : ℤ) ≤ 6
    ∧ (getTwitterScreengrabIfExists
          (addTwitterScreengrab CacheDB.empty "acct" "123" "s3/a" 5) "acct" "123"
          = some ("acct", "123", 5, "s3/a")
        ∧ (4 : ℤ) ≤ 5 ∧ (5 : ℤ) ≤ 6) :=
  ⟨by norm_num, by norm_num,
    upsert_then_lookup CacheDB.empty "acct" "123" "s3/a" 4 5 6
      (by norm_num) (by norm_num)⟩

/-- C5: after any sequence of operations from a fresh database the store
holds at most one screengrab row per key, and upserting the same key twice
with locators L1 then L2 leaves exactly one row for the key, holding L2. -/
theorem screengrab_key_unique_last_write_wins :
    (∀ (ops : List CacheOp) (a s : String),
        screengrabCount (applyOps CacheDB.empty ops) a s ≤ 1)
    ∧ ∀ (db : CacheDB) (a s p1 : String) (t1 : ℤ) (p2 : String) (t2 : ℤ),
        (addTwitterScreengrab (addTwitterScreengrab db a s p1 t1) a s p2 t2).screengrabs.filter
            (fun r => r.hasKey a s)
          = [⟨a, s, t2, p2⟩] := by
  constructor
  · intro ops a s
    suffices h : ∀ (ops : List CacheOp) (db : CacheDB), screengrabCount db a s ≤ 1 →
        screengrabCount (applyOps db ops) a s ≤ 1 from
      h ops CacheDB.empty (by simp [screengrabCount, CacheDB.empty])
    intro ops
    induction ops with
    | nil => intro db h; exact h
    | cons op ops ih =>
      intro db h
      refine ih (applyOp db op) ?_
      cases op with
      | addMedia s' p u m t =>
        simpa [applyOp, addTwitterScreengrabMedia, screengrabCount] using h
      | upsert a' s' p t =>
        show screengrabCount (addTwitterScreengrab db a' s' p t) a s ≤ 1
        by_cases hk : a' = a ∧ s' = s
        · obtain ⟨ha, hs⟩ := hk
          subst ha; subst hs
          unfold screengrabCount addTwitterScreengrab
          rw [List.filter_append, List.length_append, List.filter_filter]
          simp [ScreengrabRow.hasKey]
        · unfold screengrabCount at h ⊢
          unfold addTwitterScreengrab
          rw [List.filter_append, List.length_append]
          have h2 : List.filter (fun r => r.hasKey a s)
              [(⟨a', s', t, p⟩ : ScreengrabRow)] = [] := by
            simp [ScreengrabRow.hasKey, hk]
          rw [h2]
          have hsub : List.Sublist
              (db.screengrabs.filter (fun r => !(r.hasKey a' s'))) db.screengrabs :=
            List.filter_sublist db.screengrabs
          have h3 : ((db.screengrabs.filter (fun r => !(r.hasKey a' s'))).filter
                (fun r => r.hasKey a s)).length
              ≤ (db.screengrabs.filter (fun r => r.hasKey a s)).length :=
            (hsub.filter (fun r => r.hasKey a s)).length_le
          simpa using le_trans h3 h
  · intro db a s p1 t1 p2 t2
    exact filter_key_addTwitterScreengrab _ a s p2 t2

/-- C6: listing media for a contentId returns exactly the media records
previously added for that contentId — none of any other contentId — in
insertion order, and the empty list when none were added. -/
theorem media_list_matches_adds :
    ∀ (ops : List CacheOp) (sid : String),
      (getTwitterScreengrabMedias (applyOps CacheDB.empty ops) sid).map MediaRow.payload
          = mediaAddsFor sid ops
      ∧ (∀ r ∈ getTwitterScreengrabMedias (applyOps CacheDB.empty ops) sid,
          r.statusId = sid)
      ∧ (mediaAddsFor sid ops = [] →
          getTwitterScreengrabMedias (applyOps CacheDB.empty ops) sid = []) := by
  intro ops sid
  have h := getMedias_applyOps sid ops CacheDB.empty
  have hbase : getTwitterScreengrabMedias CacheDB.empty sid = [] := rfl
  rw [hbase] at h
  simp only [List.map_nil, List.nil_append] at h
  refine ⟨h, ?_, ?_⟩
  · intro r hr
    have hmem := (List.mem_filter.mp hr).2
    simpa using hmem
  · intro hnone
    rw [hnone] at h
    exact List.map_eq_nil_iff.mp h

/-! ## Claim theorems: border correction and totality -/

/-- Concrete evaluation of the layout on aspect ratios `[1.0, 1.02]` at
target width 1200 and border 10: one two-image row. -/
theorem layout_similar_pair_concrete :
    calculateLayout 1200 [⟨[], 100, 100⟩, ⟨[], 102, 100⟩] 10
      = .ok ([[(⟨[], 100, 100⟩, 589, 589), (⟨[], 102, 100⟩, 600, 589)]],
          1200, 589) := by
  norm_num [calculateLayout, groupImages, groupGo, shouldCombineHorizontally,
    defaultTolerance, Image.aspectRatio, buildRows, scaleRow, groupWidthRatio,
    rowTargetHeight, naiveWidth, totalScaledWidth, availableWidth, rowScaleFactor,
    adjustedRow, truncQ, stackHeight, rowMaxHeight, abs_of_nonneg, abs_of_nonpos]

/-- C1 (amended): for every row of a computed layout (positive-dimension
images, non-negative border, `2·borderSize ≤ targetWidth`) the adjusted
widths plus inter-image borders never exceed `targetWidth` and fall short
of it by fewer pixels than the row has images — within 2 pixels for rows of
3, within 1 pixel only for rows of at most 2 images; the two-image instance
with aspect ratios 1.0 and 1.02 at width 1200 and border 10 sums to 1199,
within 1 of 1200. -/
theorem row_width_sum_bounds (targetWidth borderSize : ℤ) (images : List Image)
    (rows : List (List (Image × ℤ × ℤ))) (dims : ℤ × ℤ)
    (hpos : ∀ img ∈ images, 0 < img.width ∧ 0 < img.height)
    (hbs : 0 ≤ borderSize) (htw : 2 * borderSize ≤ targetWidth)
    (hok : calculateLayout targetWidth images borderSize = .ok (rows, dims)) :
    (∀ row ∈ rows, rowWidthSum borderSize row ≤ targetWidth
        ∧ targetWidth - (row.length : ℤ) < rowWidthSum borderSize row)
    ∧ calculateLayout 1200 [⟨[], 100, 100⟩, ⟨[], 102, 100⟩] 10
        = .ok ([[(⟨[], 100, 100⟩, 589, 589), (⟨[], 102, 100⟩, 600, 589)]],
            1200, 589)
    ∧ rowWidthSum 10 [(⟨[], 100, 100⟩, 589, 589), (⟨[], 102, 100⟩, 600, 589)] = 1199
    ∧ |(1200 : ℤ) - 1199| ≤ 1 := by
  obtain ⟨hne, hbr, _⟩ := calculateLayout_ok hok
  have hf := buildRows_ok hbr
  refine ⟨?_, layout_similar_pair_concrete, by norm_num [rowWidthSum], by norm_num⟩
  intro row hrow
  obtain ⟨g, hg, hsr⟩ := forall₂_mem_right hf hrow
  obtain ⟨hS, hW, hroweq⟩ := scaleRow_ok_iff.mp hsr
  have hglen := groupImages_length images g hg
  have hgmem : ∀ img ∈ g, 0 < img.width ∧ 0 < img.height :=
    fun img himg => hpos img (mem_of_mem_groupImages hg himg)
  have hgne : g ≠ [] := List.length_pos.mp hglen.1
  have hbounds := adjustedRow_width_sum_bounds targetWidth borderSize g hgne hgmem
    hbs htw hglen.2 hW
  have hlen : (adjustedRow targetWidth borderSize g).length = g.length := by
    simp [adjustedRow]
  rw [hroweq, hlen]
  exact hbounds

/-- Witness applying `row_width_sum_bounds` to the concrete 1.0/1.02 pair. -/
theorem row_width_sum_bounds_witness :
    calculateLayout 1200 [⟨[], 100, 100⟩, ⟨[], 102, 100⟩] 10
      = .ok ([[(⟨[], 100, 100⟩, 589, 589), (⟨[], 102, 100⟩, 600, 589)]],
          1200, 589) :=
  (row_width_sum_bounds 1200 10 [⟨[], 100, 100⟩, ⟨[], 102, 100⟩]
    [[(⟨[], 100, 100⟩, 589, 589), (⟨[], 102, 100⟩, 600, 589)]] (1200, 589)
    (by decide) (by norm_num) (by norm_num) layout_similar_pair_concrete).2.1

/-- C1 counterexample: at target width 1200 and border 10, the 3-image row
with dimensions 512×512, 512×512, 511×512 gets adjusted widths
393 + 393 + 392, so widths plus two borders sum to 1198 — short of 1200 by
2 pixels, not within the claimed 1 pixel. -/
theorem row_width_sum_counterexample :
    calculateLayout 1200 [⟨[], 512, 512⟩, ⟨[], 512, 512⟩, ⟨[], 511, 512⟩] 10
      = .ok ([[(⟨[], 512, 512⟩, 393, 393), (⟨[], 512, 512⟩, 393, 393),
          (⟨[], 511, 512⟩, 392, 393)]], 1200, 393)
    ∧ rowWidthSum 10 [(⟨[], 512, 512⟩, 393, 393), (⟨[], 512, 512⟩, 393, 393),
        (⟨[], 511, 512⟩, 392, 393)] = 1198
    ∧ ¬ (|(1200 : ℤ) - 1198| ≤ 1) := by
  refine ⟨?_, by norm_num [rowWidthSum], by norm_num⟩
  norm_num [calculateLayout, groupImages, groupGo, shouldCombineHorizontally,
    defaultTolerance, Image.aspectRatio, buildRows, scaleRow, groupWidthRatio,
    rowTargetHeight, naiveWidth, totalScaledWidth, availableWidth, rowScaleFactor,
    adjustedRow, truncQ, stackHeight, rowMaxHeight, abs_of_nonneg, abs_of_nonpos]

/-- C10 (amended): for a non-empty list of positive-dimension images, the
divisors `max(ar1, ar2)` and `Σ aspect ratios` are always nonzero, and the
third division's divisor (the sum of truncated naive widths) is also
nonzero — so the layout computation succeeds — provided additionally
`6 ≤ targetWidth` and every image's aspect ratio is at most
`targetWidth / 6`; without that proviso the third divisor can vanish (see
the counterexample). -/
theorem layout_totality (targetWidth borderSize : ℤ) (images : List Image)
    (hne : images ≠ [])
    (hpos : ∀ img ∈ images, 0 < img.width ∧ 0 < img.height)
    (htw : 6 ≤ targetWidth)
    (har : ∀ img ∈ images, 6 * img.width ≤ targetWidth * img.height) :
    (∀ img1 ∈ images, ∀ img2 ∈ images,
        0 < max img1.aspectRatio img2.aspectRatio)
    ∧ (∀ g ∈ groupImages images, groupWidthRatio g ≠ 0)
    ∧ ∃ result, calculateLayout targetWidth images borderSize = .ok result := by
  have hgfacts : ∀ g ∈ groupImages images,
      g ≠ [] ∧ (∀ img ∈ g, 0 < img.width ∧ 0 < img.height) ∧ g.length ≤ 3 := by
    intro g hg
    have hglen := groupImages_length images g hg
    exact ⟨List.length_pos.mp hglen.1,
      fun img himg => hpos img (mem_of_mem_groupImages hg himg), hglen.2⟩
  refine ⟨?_, ?_, ?_⟩
  · intro img1 h1 img2 h2
    exact lt_max_of_lt_left (aspectRatio_pos (hpos img1 h1).1 (hpos img1 h1).2)
  · intro g hg
    obtain ⟨hgne, hgpos, _⟩ := hgfacts g hg
    exact (groupWidthRatio_pos hgne hgpos).ne'
  · have hrows : ∃ rows, buildRows targetWidth borderSize (groupImages images)
        = .ok rows := by
      refine buildRows_ok_of_forall _ ?_
      intro g hg
      obtain ⟨hgne, hgpos, hglen3⟩ := hgfacts g hg
      have hgar : ∀ img ∈ g, 6 * img.width ≤ targetWidth * img.height :=
        fun img himg => har img (mem_of_mem_groupImages hg himg)
      refine ⟨adjustedRow targetWidth borderSize g, scaleRow_ok_iff.mpr ?_⟩
      exact ⟨(groupWidthRatio_pos hgne hgpos).ne',
        (totalScaledWidth_pos targetWidth g hgne hgpos htw hgar hglen3).ne', rfl⟩
    obtain ⟨rows, hrows⟩ := hrows
    refine ⟨(rows, targetWidth, stackHeight borderSize rows), ?_⟩
    unfold calculateLayout
    rw [if_neg (by simpa using hne), hrows]

/-- Witness applying `layout_totality` to a concrete input. -/
theorem layout_totality_witness :
    (∀ img1 ∈ [(⟨[], 100, 100⟩ : Image)], ∀ img2 ∈ [(⟨[], 100, 100⟩ : Image)],
        0 < max img1.aspectRatio img2.aspectRatio)
    ∧ (∀ g ∈ groupImages [(⟨[], 100, 100⟩ : Image)], groupWidthRatio g ≠ 0)
    ∧ ∃ result, calculateLayout 1200 [(⟨[], 100, 100⟩ : Image)] 10 = .ok result :=
  layout_totality 1200 10 [⟨[], 100, 100⟩]
    (by decide) (by decide) (by norm_num) (by decide)

/-- C10 counterexample: the single image 1300×1 has positive width and
height, yet at target width 1200 its truncated naive width is 0, so the
layout computation divides by zero (`ZeroDivisionError` in Python). -/
theorem layout_divzero_counterexample :
    (0 : ℤ) < 1300 ∧ (0 : ℤ) < 1
    ∧ calculateLayout 1200 [⟨[], 1300, 1⟩] 10 = .error "division by zero" := by
  refine ⟨by norm_num, by norm_num, ?_⟩
  norm_num [calculateLayout, groupImages, groupGo, buildRows, scaleRow,
    groupWidthRatio, Image.aspectRatio, totalScaledWidth, naiveWidth,
    rowTargetHeight, truncQ]

/-! ## Determinism: the layout reads only declared dimensions -/

theorem aspectRatio_stripFile (img : Image) :
    (stripFile img).aspectRatio = img.aspectRatio := rfl

theorem getLastD_map_stripFile : ∀ (l : List Image) (d : Image),
    (l.map stripFile).getLastD (stripFile d) = stripFile (l.getLastD d) := by
  intro l
  induction l with
  | nil => intro d; rfl
  | cons a l ih =>
    intro d
    simp only [List.map_cons, List.getLastD_cons]
    exact ih a

theorem shouldCombine_stripFile (img1 img2 : Image) (t : ℚ) :
    shouldCombineHorizontally (stripFile img1) (stripFile img2) t
      = shouldCombineHorizontally img1 img2 t := rfl

theorem groupGo_stripFile : ∀ (rest current : List Image),
    groupGo (current.map stripFile) (rest.map stripFile)
      = (groupGo current rest).map (List.map stripFile) := by
  intro rest
  induction rest with
  | nil => intro current; rfl
  | cons img rest ih =>
    intro current
    rw [List.map_cons, groupGo, groupGo]
    have hcond : ((shouldCombineHorizontally
          ((current.map stripFile).getLastD (stripFile img)) (stripFile img)
            defaultTolerance : Prop)
          ∧ (current.map stripFile).length < 3)
        ↔ ((shouldCombineHorizontally (current.getLastD img) img
            defaultTolerance : Prop) ∧ current.length < 3) := by
      rw [getLastD_map_stripFile, shouldCombine_stripFile, List.length_map]
    by_cases h : (shouldCombineHorizontally (current.getLastD img) img
        defaultTolerance : Prop) ∧ current.length < 3
    · rw [if_pos (hcond.mpr h), if_pos h]
      have hc : current.map stripFile ++ [stripFile img]
          = (current ++ [img]).map stripFile := by simp
      rw [hc, ih]
    · rw [if_neg (fun hc => h (hcond.mp hc)), if_neg h]
      have h1 : [stripFile img] = [img].map stripFile := rfl
      rw [List.map_cons, h1, ih]

theorem groupImages_stripFile (images : List Image) :
    groupImages (images.map stripFile)
      = (groupImages images).map (List.map stripFile) := by
  cases images with
  | nil => rfl
  | cons i rest =>
    simp only [List.map_cons, groupImages]
    have h := groupGo_stripFile rest [i]
    simpa using h

theorem groupWidthRatio_stripFile (group : List Image) :
    groupWidthRatio (group.map stripFile) = groupWidthRatio group := by
  unfold groupWidthRatio
  rw [List.map_map]
  rfl

theorem rowTargetHeight_stripFile (targetWidth : ℤ) (group : List Image) :
    rowTargetHeight targetWidth (group.map stripFile)
      = rowTargetHeight targetWidth group := by
  unfold rowTargetHeight
  rw [groupWidthRatio_stripFile]

theorem naiveWidth_stripFile (targetWidth : ℤ) (group : List Image) (img : Image) :
    naiveWidth targetWidth (group.map stripFile) (stripFile img)
      = naiveWidth targetWidth group img := by
  unfold naiveWidth
  rw [rowTargetHeight_stripFile]
  rfl

theorem totalScaledWidth_stripFile (targetWidth : ℤ) (group : List Image) :
    totalScaledWidth targetWidth (group.map stripFile)
      = totalScaledWidth targetWidth group := by
  unfold totalScaledWidth
  rw [List.map_map]
  refine congrArg List.sum (List.map_congr_left ?_)
  intro img _
  exact naiveWidth_stripFile targetWidth group img

theorem rowScaleFactor_stripFile (targetWidth borderSize : ℤ) (group : List Image) :
    rowScaleFactor targetWidth borderSize (group.map stripFile)
      = rowScaleFactor targetWidth borderSize group := by
  unfold rowScaleFactor
  rw [totalScaledWidth_stripFile, List.length_map]

theorem adjustedRow_stripFile (targetWidth borderSize : ℤ) (group : List Image) :
    adjustedRow targetWidth borderSize (group.map stripFile)
      = (adjustedRow targetWidth borderSize group).map
          (fun e => (stripFile e.1, e.2)) := by
  unfold adjustedRow
  rw [List.map_map, List.map_map]
  refine List.map_congr_left ?_
  intro img _
  simp only [Function.comp_apply]
  rw [naiveWidth_stripFile, rowTargetHeight_stripFile, rowScaleFactor_stripFile]

theorem scaleRow_stripFile (targetWidth borderSize : ℤ) (group : List Image) :
    scaleRow targetWidth borderSize (group.map stripFile)
      = (scaleRow targetWidth borderSize group).map
          (List.map (fun e => (stripFile e.1, e.2))) := by
  unfold scaleRow
  rw [groupWidthRatio_stripFile, totalScaledWidth_stripFile]
  by_cases h1 : groupWidthRatio group = 0
  · rw [if_pos h1, if_pos h1]; rfl
  · rw [if_neg h1, if_neg h1]
    by_cases h2 : totalScaledWidth targetWidth group = 0
    · rw [if_pos h2, if_pos h2]; rfl
    · rw [if_neg h2, if_neg h2, adjustedRow_stripFile]; rfl

theorem buildRows_stripFile (targetWidth borderSize : ℤ) :
    ∀ groups : List (List Image),
    buildRows targetWidth borderSize (groups.map (List.map stripFile))
      = (buildRows targetWidth borderSize groups).map
          (List.map (List.map (fun e => (stripFile e.1, e.2)))) := by
  intro groups
  induction groups with
  | nil => rfl
  | cons g gs ih =>
    rw [List.map_cons, buildRows, buildRows, scaleRow_stripFile, ih]
    cases hsr : scaleRow targetWidth borderSize g with
    | error e => rfl
    | ok row =>
      cases hbr : buildRows targetWidth borderSize gs with
      | error e => rfl
      | ok rows => rfl

theorem rowMaxHeight_stripFile (row : List (Image × ℤ × ℤ)) :
    rowMaxHeight (row.map (fun e => (stripFile e.1, e.2))) = rowMaxHeight row := by
  cases row with
  | nil => rfl
  | cons e rest =>
    simp only [List.map_cons, rowMaxHeight]
    rw [List.foldl_map]

theorem stackHeight_stripFile (borderSize : ℤ)
    (rows : List (List (Image × ℤ × ℤ))) :
    stackHeight borderSize
        (rows.map (List.map (fun e => (stripFile e.1, e.2))))
      = stackHeight borderSize rows := by
  cases rows with
  | nil => rfl
  | cons r rest =>
    simp only [List.map_cons, stackHeight, rowMaxHeight_stripFile, List.map_map]
    congr 1
    refine congrArg List.sum (List.map_congr_left ?_)
    intro r' _
    simp only [Function.comp_apply]
    rw [rowMaxHeight_stripFile]

theorem calculateLayout_stripFile (targetWidth borderSize : ℤ)
    (images : List Image) :
    (calculateLayout targetWidth (images.map stripFile) borderSize).map
        (fun p => p.2)
      = (calculateLayout targetWidth images borderSize).map (fun p => p.2) := by
  unfold calculateLayout
  rw [groupImages_stripFile, buildRows_stripFile]
  have hisE : (images.map stripFile).isEmpty = images.isEmpty := by
    cases images <;> rfl
  rw [hisE]
  by_cases h : images.isEmpty
  · rw [if_pos h, if_pos h]
  · rw [if_neg h, if_neg h]
    cases hbr : buildRows targetWidth borderSize (groupImages images) with
    | error e => rfl
    | ok rows =>
      simp only [Except.map, Except.map_ok]
      rw [stackHeight_stripFile]

/-- C8: the mosaic composition is deterministic: identical image lists and
identical configuration yield identical layouts and canvas dimensions
across runs; moreover the dimensions depend only on the images' declared
width/height data, not their byte payloads. -/
theorem layout_deterministic :
    (∀ (targetWidth borderSize : ℤ) (images1 images2 : List Image),
        images1 = images2 →
        calculateLayout targetWidth images1 borderSize
            = calculateLayout targetWidth images2 borderSize
          ∧ createMosaicCanvas images1 targetWidth borderSize
            = createMosaicCanvas images2 targetWidth borderSize)
    ∧ ∀ (targetWidth borderSize : ℤ) (images1 images2 : List Image),
        images1.map stripFile = images2.map stripFile →
        (calculateLayout targetWidth images1 borderSize).map (fun p => p.2)
          = (calculateLayout targetWidth images2 borderSize).map (fun p => p.2) := by
  constructor
  · intro tw bs i1 i2 h
    subst h
    exact ⟨rfl, rfl⟩
  · intro tw bs i1 i2 h
    rw [← calculateLayout_stripFile tw bs i1, h, calculateLayout_stripFile]

/-- Witness applying `layout_deterministic` to a concrete repeated run. -/
theorem layout_deterministic_witness :
    calculateLayout 1200 [(⟨[], 100, 100⟩ : Image)] 10
      = calculateLayout 1200 [(⟨[], 100, 100⟩ : Image)] 10 :=
  (layout_deterministic.1 1200 10 [⟨[], 100, 100⟩] [⟨[], 100, 100⟩] rfl).1

end Screengrabber
